import Mathlib

/-!
Verification of the markdown-to-inline-styled-HTML renderer layer
(`src/styles.ts` utilities and the `MarkdownRenderer` extension class).

Strings of the source are modelled as Lean `String`s; where the source
iterates over characters we work on `String.data` (`List Char`).
JavaScript objects holding style declarations are modelled as association
lists in insertion order, matching `Object.entries` enumeration order for
the non-integer keys used by the program.  JavaScript numbers appearing as
style values are modelled as integers (the program only ever compares and
concatenates them).
-/

/-- A JavaScript value stored in a style object: a string, a number,
`null`, or `undefined`. -/
inductive CssValue where
  | str : String → CssValue
  | num : Int → CssValue
  | null : CssValue
  | undef : CssValue
deriving DecidableEq

/-- A style object (`StyleOptions`): key/value entries in insertion order. -/
abbrev StyleObj : Type := List (String × CssValue)

/-- `value !== undefined && value !== null` from the source's filter step. -/
def isDefined : CssValue → Bool
  | .undef => false
  | .null => false
  | _ => true

/-- `key.replace(/([A-Z])/g, '-$1').toLowerCase()`: insert a dash before
every upper-case letter, then lower-case everything. -/
def camelToKebab (s : String) : String :=
  String.mk (s.data.foldr
    (fun c acc => if c.isUpper then '-' :: c.toLower :: acc else c.toLower :: acc) [])

/-- Whether `needle` is a prefix of `hay` (JS `String.startsWith`, and the
anchored part of the regexes used by the tokenizers). -/
def startsWithSeq : List Char → List Char → Bool
  | [], _ => true
  | _ :: _, [] => false
  | a :: as, b :: bs => a = b && startsWithSeq as bs

/-- Whether `needle` occurs as a contiguous subsequence of `hay`
(JS `String.includes`). -/
def containsSeq (needle : List Char) : List Char → Bool
  | [] => startsWithSeq needle []
  | c :: rest => startsWithSeq needle (c :: rest) || containsSeq needle (c :: rest).tail

/-- The body of the `.map` step of `cssPropertiesToString`: the media-query
key maps to the empty string (later removed by `.filter(Boolean)`); any
other key is kebab-cased and joined with the value, numeric values getting
a `px` suffix unless the kebab-cased key contains `line-height`. -/
def cssEntryToString (key : String) (value : CssValue) : String :=
  if key = "@media (max-width: 768px)" then ""
  else
    let cssKey := camelToKebab key
    let valueStr :=
      match value with
      | .num n =>
          if containsSeq ("line-height".data) cssKey.data then toString n
          else toString n ++ "px"
      | .str s => s
      | .null => "null"
      | .undef => "undefined"
    cssKey ++ ": " ++ valueStr

/-- `cssPropertiesToString`: filter out `undefined`/`null` values, map each
entry to its declaration string, drop empty strings, join with `;`.
The absent / empty object is the empty list (the source's `= {}` default and
`if (!style) return ''` guard both yield `''`). -/
def cssPropertiesToString (style : StyleObj) : String :=
  String.intercalate ";"
    (((style.filter (fun p => isDefined p.2)).map
        (fun p => cssEntryToString p.1 p.2)).filter (fun s => s ≠ ""))

/-- Spec-side description of one emitted declaration (used to state the
amended form of the claim about `cssPropertiesToString`): entries whose
value is `undefined` or `null` are skipped, the media-query key is dropped,
every other entry becomes `<kebab-case key>: <serialized value>` where a
numeric value gets a `px` suffix unless the kebab-cased key contains
`line-height`. -/
def cssSpecDecl (key : String) (value : CssValue) : Option String :=
  if value = CssValue.undef ∨ value = CssValue.null then none
  else if key = "@media (max-width: 768px)" then none
  else
    let cssKey := camelToKebab key
    let valueStr :=
      match value with
      | .num n =>
          if containsSeq ("line-height".data) cssKey.data then toString n
          else toString n ++ "px"
      | .str s => s
      | .null => "null"
      | .undef => "undefined"
    some (cssKey ++ ": " ++ valueStr)

/-- Spec-side serialization of a whole style object: the surviving
declarations joined with `;` in entry order. -/
def cssSpecString (style : StyleObj) : String :=
  String.intercalate ";" (style.filterMap (fun p => cssSpecDecl p.1 p.2))

/-- JavaScript object-spread update `{...obj, key: v}`: if `key` already
occurs its value is replaced in place, otherwise the entry is appended. -/
def objSet (l : StyleObj) (key : String) (v : CssValue) : StyleObj :=
  if l.any (fun p => p.1 = key) then
    l.map (fun p => if p.1 = key then (key, v) else p)
  else l ++ [(key, v)]

/-- Whitespace as matched by JS `\s` / removed by `String.trim` (the code
points the program can meet; the exotic Unicode space classes are omitted). -/
def jsWhitespace (c : Char) : Bool :=
  c = ' ' || c = '\t' || c = '\n' || c = '\r' ||
  c = Char.ofNat 11 || c = Char.ofNat 12 || c = Char.ofNat 160

/-- JS `String.trim`: drop whitespace from both ends. -/
def jsTrim (l : List Char) : List Char :=
  ((l.dropWhile jsWhitespace).reverse.dropWhile jsWhitespace).reverse

/-- `color.replace('#', '')`: JS `String.replace` with a string pattern
removes only the first occurrence. -/
def removeFirstHash : List Char → List Char
  | [] => []
  | c :: rest => if c = '#' then rest else c :: removeFirstHash rest

/-- Value of one hexadecimal digit, case-insensitive, as read by
`parseInt(·, 16)`. -/
def hexDigitVal (c : Char) : Option Nat :=
  if '0' ≤ c ∧ c ≤ '9' then some (c.toNat - 48)
  else if 'a' ≤ c ∧ c ≤ 'f' then some (c.toNat - 87)
  else if 'A' ≤ c ∧ c ≤ 'F' then some (c.toNat - 55)
  else none

/-- `parseInt(s, 16)` on the short slices the program produces: the maximal
leading run of hex digits is converted; no digits at all gives `NaN`,
modelled as `none`.  (The leading-whitespace / sign / `0x`-prefix handling
of full `parseInt` never triggers on the program's inputs and is omitted.) -/
def parseIntHex (l : List Char) : Option Nat :=
  let ds := l.takeWhile (fun c => (hexDigitVal c).isSome)
  if ds.isEmpty then none
  else some (ds.foldl (fun acc c => 16 * acc + (hexDigitVal c).getD 0) 0)

/-- `isLightColor`: strip the first `#`, read the three channels (a 3-digit
color duplicates each digit, anything else is read by 2-character slices),
and compare the relative luminance `(0.299 r + 0.587 g + 0.114 b) / 255`
against `0.7`.  A failed channel parse is JS `NaN`, which makes every
comparison false. -/
def isLightColor (color : String) : Bool :=
  let hex := removeFirstHash color.data
  let parsed : List (Option Nat) :=
    if hex.length = 3 then hex.map (fun c => parseIntHex [c, c])
    else [parseIntHex ((hex.drop 0).take 2),
          parseIntHex ((hex.drop 2).take 2),
          parseIntHex ((hex.drop 4).take 2)]
  match parsed with
  | [some r, some g, some b] =>
      decide ((0.299 * (r : ℚ) + 0.587 * (g : ℚ) + 0.114 * (b : ℚ)) / 255 > 0.7)
  | _ => false

/-- Modelled from the spec: the `codeThemes` palette table lives in
`config/code-themes`, which is not part of the analyzed source; a theme is
"a named color palette (background, foreground, per-token-type colors)".
The per-token-type colors are an association list from token-type name to
color string. -/
structure CodeThemeColors where
  background : String
  text : String
  tokens : List (String × String)
deriving DecidableEq

/-- One entry of the `codeThemes` configuration array. -/
structure CodeThemeConfig where
  id : String
  theme : CodeThemeColors
deriving DecidableEq

/-- `codeThemes.find(t => t.id === theme)`. -/
def findTheme (themes : List CodeThemeConfig) (theme : String) : Option CodeThemeConfig :=
  themes.find? (fun t => t.id = theme)

/-- `getCodeThemeStyles`: background and text color of the configured
theme, or the empty style object when the id is unknown. -/
def getCodeThemeStyles (themes : List CodeThemeConfig) (theme : String) : StyleObj :=
  match findTheme themes theme with
  | none => []
  | some cfg => [("background", CssValue.str cfg.theme.background),
                 ("color", CssValue.str cfg.theme.text)]

/-- `themeConfig.theme[tokenType as keyof typeof themeConfig.theme]`:
indexing the palette object by a token-type name can also hit its
`background` / `text` fields. -/
def themeField (t : CodeThemeColors) (k : String) : Option String :=
  if k = "background" then some t.background
  else if k = "text" then some t.text
  else t.tokens.lookup k

/-- JS `a || b` on an optionally-present string: `b` when `a` is absent
(`undefined`) or falsy (the empty string). -/
def jsOrString (a : Option String) (b : String) : String :=
  match a with
  | some s => if s = "" then b else s
  | none => b

/-- `getTokenStyles`: unknown theme gives `''`; with `forceDarkPalette` set
and a light background the `monokai` palette replaces the requested one
(when present); the token color falls back to the palette's text color, and
a falsy color gives `''`. -/
def getTokenStyles (themes : List CodeThemeConfig) (theme : String)
    (tokenType : String) (forceDarkPalette : Bool) : String :=
  match findTheme themes theme with
  | none => ""
  | some cfg0 =>
    let cfg :=
      if forceDarkPalette && isLightColor cfg0.theme.background then
        (findTheme themes "monokai").getD cfg0
      else cfg0
    let tokenColor := jsOrString (themeField cfg.theme tokenType) cfg.theme.text
    if tokenColor = "" then "" else "color: " ++ tokenColor ++ ";"

/-- `isLightCodeTheme`: `false` for an unknown theme id, otherwise the
light/dark classification of the theme's background color. -/
def isLightCodeTheme (themes : List CodeThemeConfig) (theme : String) : Bool :=
  match findTheme themes theme with
  | none => false
  | some cfg => isLightColor cfg.theme.background

/-- The custom `latexBlock` token (`type`, `raw`, `text`; the always-empty
`tokens` array is omitted). -/
structure LatexBlockToken where
  raw : String
  text : String
deriving DecidableEq

/-- The custom `mermaidBlock` token. -/
structure MermaidBlockToken where
  raw : String
  text : String
deriving DecidableEq

/-- Search for the leftmost `$$` in a character list; on success return the
characters before it and the characters after it.  This is the lazy
`([\s\S]*?)\$\$` part of the latexBlock rule. -/
def findDoubleDollar : List Char → Option (List Char × List Char)
  | [] => none
  | [_] => none
  | a :: b :: rest =>
    if a = '$' ∧ b = '$' then some ([], rest)
    else
      match findDoubleDollar (b :: rest) with
      | some (pre, post) => some (a :: pre, post)
      | none => none

/-- The latexBlock tokenizer on the character list of the source text:
`/^\$\$([\s\S]*?)\$\$/` with `raw` the whole match and `text` the trimmed
capture. -/
def latexTokenizeAux (l : List Char) : Option LatexBlockToken :=
  match l with
  | a :: b :: rest =>
    if a = '$' ∧ b = '$' then
      match findDoubleDollar rest with
      | some (content, _) =>
          some { raw := String.mk ('$' :: '$' :: (content ++ ['$', '$'])),
                 text := String.mk (jsTrim content) }
      | none => none
    else none
  | _ => none

/-- `latexBlockTokenizer.tokenizer`: `undefined` (here `none`) when the
rule does not match. -/
def latexBlockTokenize (src : String) : Option LatexBlockToken :=
  latexTokenizeAux src.data

/-- The backtick character (code point 96). -/
def backquote : Char := Char.ofNat 96

/-- Greedy `\s*\n` at the start of a list: consume the longest whitespace
run that ends with a newline.  Returns the consumed part and the rest, or
`none` when no such run exists. -/
def consumeWsNl : List Char → Option (List Char × List Char)
  | [] => none
  | c :: rest =>
    if jsWhitespace c then
      match consumeWsNl rest with
      | some (p, r) => some (c :: p, r)
      | none => if c = '\n' then some ([c], rest) else none
    else none

/-- The closing part `` ```(?:\s*\n|$) `` at one position: the three
backticks followed either by `\s*\n` (preferred, greedy) or the end of the
input.  Returns the consumed characters and the remainder. -/
def ticksTail (r : List Char) : Option (List Char × List Char) :=
  if startsWithSeq [backquote, backquote, backquote] r then
    let after := r.drop 3
    match consumeWsNl after with
    | some (p, rem) => some ([backquote, backquote, backquote] ++ p, rem)
    | none => if after.isEmpty then some ([backquote, backquote, backquote], []) else none
  else none

/-- The closing pattern `` \n*```(?:\s*\n|$) `` at one position: `\n*` is
greedy, and backtracking a shorter newline run can only succeed where the
skipped character is itself a newline. -/
def closeAt : List Char → Option (List Char × List Char)
  | '\n' :: rest =>
    (match closeAt rest with
     | some (p, rem) => some ('\n' :: p, rem)
     | none => none)
  | r => ticksTail r

/-- Lazy scan of `([\s\S]*?)` for the first position where the closing
pattern matches: returns the capture, the characters consumed by the
closing pattern, and the remainder of the input. -/
def fenceSplit : List Char → Option (List Char × List Char × List Char)
  | [] =>
    (match closeAt [] with
     | some (p, rem) => some ([], p, rem)
     | none => none)
  | c :: rest =>
    match closeAt (c :: rest) with
    | some (p, rem) => some ([], p, rem)
    | none =>
      match fenceSplit rest with
      | some t => some (c :: t.1, t.2.1, t.2.2)
      | none => none

/-- The optional `(?:mermaid\s*\n)?` after the opening backticks: the
literal `mermaid` followed by a greedy whitespace run ending in a
newline. -/
def mermaidHeaderConsume (l : List Char) : Option (List Char × List Char) :=
  if startsWithSeq ("mermaid".data) l then
    match consumeWsNl (l.drop 7) with
    | some (p, rem) => some ("mermaid".data ++ p, rem)
    | none => none
  else none

/-- The whole fence rule `` /^```(?:mermaid\s*\n)?([\s\S]*?)\n*```(?:\s*\n|$)/ ``:
returns (consumed optional header, capture group 1, characters consumed by
the closing pattern).  When the optional header matches, no closing fence
can hide inside it, so the regex engine's fallback to the header-less
alternative never changes the outcome and is only needed when the header
itself does not match. -/
def fenceParse (l : List Char) : Option (List Char × List Char × List Char) :=
  if startsWithSeq [backquote, backquote, backquote] l then
    let r := l.drop 3
    match mermaidHeaderConsume r with
    | some pb =>
      (match fenceSplit pb.2 with
       | some t => some (pb.1, t.1, t.2.1)
       | none => none)
    | none =>
      (match fenceSplit r with
       | some t => some (([] : List Char), t.1, t.2.1)
       | none => none)
  else none

/-- The diagram-type test `/^(?:pie\s+|graph\s+|sequenceDiagram\s+|gantt\s+|classDiagram\s+|flowchart\s+)/`
applied to the trimmed capture. -/
def mermaidKeywords : List (List Char) :=
  ["pie".data, "graph".data, "sequenceDiagram".data, "gantt".data,
   "classDiagram".data, "flowchart".data]

/-- One alternative of the diagram-type test: the keyword followed by at
least one whitespace character. -/
def kwThenWs (kw : List Char) (l : List Char) : Bool :=
  startsWithSeq kw l &&
    (match l.drop kw.length with
     | c :: _ => jsWhitespace c
     | [] => false)

/-- Whether the trimmed capture is recognized as a mermaid diagram. -/
def isMermaidContent (l : List Char) : Bool :=
  mermaidKeywords.any (fun kw => kwThenWs kw l)

/-- Pie charts get `showData` added:
``pie showData\n${content.replace(/^pie\s*/, "").trim()}``. -/
def pieProcess (content : List Char) : List Char :=
  ("pie showData\n".data) ++ jsTrim ((content.drop 3).dropWhile jsWhitespace)

/-- `mermaidBlockTokenizer.tokenizer` on the character list: match the
fence rule, trim the capture, keep it only when the diagram-type test
passes, preprocessing pie charts. -/
def mermaidTokenizeAux (l : List Char) : Option MermaidBlockToken :=
  match fenceParse l with
  | none => none
  | some (pc, content, cc) =>
    let trimmed := jsTrim content
    if isMermaidContent trimmed then
      some { raw := String.mk ([backquote, backquote, backquote] ++ pc ++ content ++ cc),
             text := String.mk
               (if startsWithSeq ("pie".data) trimmed then pieProcess trimmed else trimmed) }
    else none

/-- `mermaidBlockTokenizer.tokenizer`. -/
def mermaidBlockTokenize (src : String) : Option MermaidBlockToken :=
  mermaidTokenizeAux src.data

/-- The slice of `RendererOptions` the verified overrides read.  Optional
members absorbed by `|| {}` in the source are modelled as already-defaulted
total fields (an absent style is the empty object); `base?.themeColor` and
`codeTheme` keep their optionality. -/
structure RendererOptions where
  block_h : Nat → StyleObj
  block_latex : StyleObj
  block_mermaid : StyleObj
  base_themeColor : CssValue
  codeTheme : Option String

/-- An options object with nothing configured. -/
def defaultOptions : RendererOptions :=
  { block_h := fun _ => [], block_latex := [], block_mermaid := [],
    base_themeColor := CssValue.undef, codeTheme := none }

/-- `latexBlockTokenizer.renderer`: KaTeX display rendering of the token
text inside a styled `div`.  KaTeX is external; it is passed as a function
whose `none` result models a thrown exception, which the `catch` turns into
`token.raw`. -/
def latexBlockRenderer (opts : RendererOptions)
    (katexRender : String → Option String) (token : LatexBlockToken) : String :=
  match katexRender token.text with
  | some rendered =>
    let style := objSet (objSet (objSet opts.block_latex
      "display" (CssValue.str "block"))
      "margin" (CssValue.str "1em 0"))
      "textAlign" (CssValue.str "center")
    let styleStr := cssPropertiesToString style
    "<div" ++ (if styleStr = "" then "" else " style=\"" ++ styleStr ++ "\"") ++
      ">" ++ rendered ++ "</div>"
  | none => token.raw

/-- `mermaidBlockTokenizer.renderer`: a styled `div class="mermaid"`
holding the token text.  The `throwsInTry` flag models an exception thrown
inside the `try` block, which the `catch` turns into a
`<pre><code class="language-mermaid">` wrapper around the token text. -/
def mermaidBlockRenderer (opts : RendererOptions) (throwsInTry : Bool)
    (token : MermaidBlockToken) : String :=
  if throwsInTry then
    "<pre><code class=\"language-mermaid\">" ++ token.text ++ "</code></pre>"
  else
    let style := objSet (objSet (objSet (objSet opts.block_mermaid
      "display" (CssValue.str "block"))
      "margin" (CssValue.str "1em 0"))
      "textAlign" (CssValue.str "center"))
      "background" (CssValue.str "transparent")
    let styleStr := cssPropertiesToString style
    "<div" ++ (if styleStr = "" then "" else " style=\"" ++ styleStr ++ "\"") ++
      " class=\"mermaid\">" ++ token.text ++ "</div>"

/-- One replacement step of `renderer.text`'s inline-formula handling:
KaTeX inline rendering of the trimmed capture, with the `catch` returning
the raw matched text. -/
def inlineFormulaRender (katexRender : String → Option String)
    (matchRaw inner : String) : String :=
  match katexRender (String.mk (jsTrim inner.data)) with
  | some r => r
  | none => matchRaw

/-- `renderer.heading`: the configured `h<depth>` style spread-extended
with `color: base?.themeColor`, serialized; the style attribute appears
only when the serialization is non-empty.  Inline-lexing and parsing of the
heading text are delegated to the marked library, abstracted as
`parseInline`. -/
def headingRender (opts : RendererOptions) (parseInline : String → String)
    (text : String) (depth : Nat) : String :=
  let headingStyle := opts.block_h depth
  let style := objSet headingStyle "color" opts.base_themeColor
  let styleStr := cssPropertiesToString style
  let content := parseInline text
  "<h" ++ toString depth ++
    (if styleStr = "" then "" else " style=\"" ++ styleStr ++ "\"") ++
    ">" ++ content ++ "</h" ++ toString depth ++ ">"

/-- The globally observable state of the shared `marked` instance: the
extensions registered so far, each remembering its name and the options
object its renderer closure captured. -/
abbrev MarkedState : Type := List (String × RendererOptions)

/-- `marked.use({ extensions: [...] })`: appends the registrations to the
global instance's state. -/
def markedUse (st : MarkedState) (exts : List (String × RendererOptions)) : MarkedState :=
  st ++ exts

/-- The effect of `new MarkdownRenderer(options)` on the global `marked`
state: `initializeLatexExtension` and `initializeMermaidExtension` each
call `marked.use` on the shared module-level `marked` object
(`initializeRenderer` only mutates the instance's own renderer). -/
def markdownRendererConstruct (opts : RendererOptions) (st : MarkedState) : MarkedState :=
  markedUse (markedUse st [("latexBlock", opts)]) [("mermaidBlock", opts)]

/-- `this.options.codeTheme || "github"` in `renderer.code`. -/
def effectiveCodeTheme (opts : RendererOptions) : String :=
  jsOrString opts.codeTheme "github"

/-- Modelled from the spec: `highlightCode` (the `code-highlight` module,
not part of the analyzed source) is the "code-syntax-highlighting helper";
it colors each highlighted token through `getTokenStyles` with the
`forceDarkPalette` flag it receives.  `renderer.code` (in the source)
passes `forceDarkPalette = isLightCodeTheme(codeTheme)`, so the style a
code-block token of a given type receives is this composition. -/
def codeBlockTokenStyle (themes : List CodeThemeConfig) (opts : RendererOptions)
    (tokenType : String) : String :=
  let codeTheme := effectiveCodeTheme opts
  getTokenStyles themes codeTheme tokenType (isLightCodeTheme themes codeTheme)

theorem append_colon_ne_empty (a b : String) : a ++ ": " ++ b ≠ "" := by
  intro h
  have hlen := congrArg String.length h
  rw [String.length_append, String.length_append] at hlen
  have h2 : (": ").length = 2 := rfl
  have h0 : ("" : String).length = 0 := rfl
  rw [h2, h0] at hlen
  omega

theorem cssEntryToString_ne_empty (k : String) (v : CssValue)
    (hk : k ≠ "@media (max-width: 768px)") : cssEntryToString k v ≠ "" := by
  unfold cssEntryToString
  rw [if_neg hk]
  exact append_colon_ne_empty _ _

theorem cssPipeline_eq_filterMap (style : StyleObj) :
    ((style.filter (fun p => isDefined p.2)).map
        (fun p => cssEntryToString p.1 p.2)).filter (fun s => s ≠ "") =
      style.filterMap (fun p => cssSpecDecl p.1 p.2) := by
  induction style with
  | nil => rfl
  | cons hd rest ih =>
    obtain ⟨k, v⟩ := hd
    by_cases hdef : isDefined v = true
    · by_cases hk : k = "@media (max-width: 768px)"
      · subst hk
        have he : cssEntryToString "@media (max-width: 768px)" v = "" := by
          unfold cssEntryToString
          rw [if_pos rfl]
        have hs : cssSpecDecl "@media (max-width: 768px)" v = none := by
          unfold cssSpecDecl
          cases v <;> simp_all [isDefined]
        simp only [List.filter_cons, List.map_cons, List.filterMap_cons, hdef, hs, he,
          if_true]
        simpa using ih
      · have he := cssEntryToString_ne_empty k v hk
        have hs : cssSpecDecl k v = some (cssEntryToString k v) := by
          unfold cssSpecDecl cssEntryToString
          rw [if_neg hk]
          cases v <;> simp_all [isDefined]
        simp only [List.filter_cons, List.map_cons, List.filterMap_cons, hdef, hs,
          if_true]
        rw [if_pos (decide_eq_true he), ih]
    · have hs : cssSpecDecl k v = none := by
        unfold cssSpecDecl
        cases v <;> simp_all [isDefined]
      simp only [List.filter_cons, List.map_cons, List.filterMap_cons, hdef, hs,
        if_false, Bool.false_eq_true]
      simpa using ih

/-- **C4 (amended).** `cssPropertiesToString` emits, for every entry with a
defined non-`null` value other than the `'@media (max-width: 768px)'` key
(which is dropped), the declaration `<kebab-case key>: <serialized value>`
— where a numeric value is suffixed with `px` unless the kebab-cased key
contains `line-height` — joined by `;` in the object's entry order, and
returns the empty string for the empty (or absent) object. -/
theorem c4_css_serialization (style : StyleObj) :
    cssPropertiesToString style = cssSpecString style ∧
    cssPropertiesToString ([] : StyleObj) = "" := by
  constructor
  · unfold cssPropertiesToString cssSpecString
    rw [cssPipeline_eq_filterMap]
  · rfl

/-- **C4 (counterexample).** A defined, non-`null` entry for the key
`'@media (max-width: 768px)'` does not appear in the output at all: the
output is empty and does not contain the claimed declaration. -/
theorem c4_media_counterexample :
    cssPropertiesToString [("@media (max-width: 768px)", CssValue.str "x")] = "" ∧
    containsSeq (("@media (max-width: 768px): x").data)
      ((cssPropertiesToString [("@media (max-width: 768px)", CssValue.str "x")]).data)
      = false := by
  constructor
  · rfl
  · decide

/-- **C8.** The media-query key `'@media (max-width: 768px)'` is silently
dropped by `cssPropertiesToString` (removing such entries never changes the
output), and a numeric value is emitted with a `px` suffix exactly when the
kebab-cased key does not contain `line-height`. -/
theorem c8_media_dropped_and_px_suffix :
    (∀ style : StyleObj, cssPropertiesToString style =
        cssPropertiesToString
          (style.filter (fun p => p.1 ≠ "@media (max-width: 768px)"))) ∧
    (∀ (k : String) (n : Int), k ≠ "@media (max-width: 768px)" →
      cssEntryToString k (CssValue.num n) =
        camelToKebab k ++ ": " ++
          (if containsSeq ("line-height".data) (camelToKebab k).data
           then toString n else toString n ++ "px")) := by
  refine ⟨fun style => ?_, fun k n hk => ?_⟩
  · unfold cssPropertiesToString
    rw [cssPipeline_eq_filterMap, cssPipeline_eq_filterMap]
    congr 1
    induction style with
    | nil => rfl
    | cons hd rest ih =>
      obtain ⟨k, v⟩ := hd
      by_cases hk : k = "@media (max-width: 768px)"
      · subst hk
        have hs : cssSpecDecl "@media (max-width: 768px)" v = none := by
          unfold cssSpecDecl
          cases v <;> simp
        simp [hs, ih]
      · cases hv : cssSpecDecl k v <;>
          simp [List.filterMap_cons, hk, hv, ih]
  · unfold cssEntryToString
    rw [if_neg hk]

theorem c8_witness :
    cssEntryToString "fontSize" (CssValue.num 5) = "font-size: 5px" := by
  have h := c8_media_dropped_and_px_suffix.2 "fontSize" 5 (by decide)
  rw [h]
  decide

/-- **C10.** For a theme id absent from the configuration, the lookups
return neutral defaults: `getCodeThemeStyles` the empty style object,
`getTokenStyles` the empty string, `isLightCodeTheme` false. -/
theorem c10_unknown_theme_defaults (themes : List CodeThemeConfig) (theme : String)
    (h : findTheme themes theme = none) :
    getCodeThemeStyles themes theme = [] ∧
    (∀ (tokenType : String) (forceDarkPalette : Bool),
      getTokenStyles themes theme tokenType forceDarkPalette = "") ∧
    isLightCodeTheme themes theme = false := by
  refine ⟨?_, fun tokenType forceDarkPalette => ?_, ?_⟩ <;>
    simp [getCodeThemeStyles, getTokenStyles, isLightCodeTheme, h]

theorem c10_witness :
    getCodeThemeStyles [] "github" = [] ∧
    getTokenStyles [] "github" "keyword" true = "" ∧
    isLightCodeTheme [] "github" = false := by
  have h := c10_unknown_theme_defaults [] "github" (by decide)
  exact ⟨h.1, h.2.1 "keyword" true, h.2.2⟩

/-- **C1 (amended).** When rendering throws, each override returns a fixed,
non-retried fallback with no recovery state, but the fallbacks are not
uniform: the LaTeX block renderer returns the token's raw source, the
inline formula path returns the raw matched text, while the Mermaid block
renderer returns the token's processed text wrapped in a
`<pre><code class="language-mermaid">` element rather than the raw
source. -/
theorem c1_fallback_values (opts : RendererOptions) (tl : LatexBlockToken)
    (tm : MermaidBlockToken) (matchRaw inner : String) :
    latexBlockRenderer opts (fun _ => none) tl = tl.raw ∧
    mermaidBlockRenderer opts true tm =
      "<pre><code class=\"language-mermaid\">" ++ tm.text ++ "</code></pre>" ∧
    inlineFormulaRender (fun _ => none) matchRaw inner = matchRaw := by
  refine ⟨rfl, ?_, rfl⟩
  simp [mermaidBlockRenderer]

/-- **C1 (counterexample).** The Mermaid renderer's exception fallback is
not the raw source text of the block. -/
theorem c1_mermaid_fallback_counterexample :
    mermaidBlockRenderer defaultOptions true
      { raw := "```mermaid\npie A\n```", text := "pie showData\nA" } ≠
      "```mermaid\npie A\n```" := by
  decide

/-- **C2 (amended).** Every renderer override in this file is a pure
function of its token and the captured options (rendering is modelled
state-free), but `MarkdownRenderer` construction is not state-free: it
appends the `latexBlock` and `mermaidBlock` extension registrations to the
shared global `marked` instance, a state change observable by every later
call that uses `marked`. -/
theorem c2_construction_mutates_marked (opts : RendererOptions) (st : MarkedState) :
    markdownRendererConstruct opts st =
      st ++ [("latexBlock", opts), ("mermaidBlock", opts)] ∧
    markdownRendererConstruct opts st ≠ st := by
  constructor
  · simp [markdownRendererConstruct, markedUse]
  · intro h
    have hlen := congrArg List.length h
    simp [markdownRendererConstruct, markedUse] at hlen

/-- **C2 (counterexample).** Constructing a `MarkdownRenderer` from a
pristine global `marked` state leaves a different state behind. -/
theorem c2_construction_counterexample :
    markdownRendererConstruct defaultOptions [] ≠ [] := by
  simp [markdownRendererConstruct, markedUse]

theorem parseIntHex_pair (a b : Char)
    (ha : (hexDigitVal a).isSome = true) (hb : (hexDigitVal b).isSome = true) :
    parseIntHex [a, b] =
      some (16 * (hexDigitVal a).getD 0 + (hexDigitVal b).getD 0) := by
  unfold parseIntHex
  simp [List.takeWhile, ha, hb, List.foldl]

/-- **C3.** `isLightColor` classifies a 6-digit hex color (channels read
two digits at a time) and a 3-digit hex color (each digit duplicated) as
light exactly when the relative luminance
`(0.299 r + 0.587 g + 0.114 b) / 255` exceeds `0.7`, and
`isLightCodeTheme` returns that classification of the configured theme's
background color. -/
theorem c3_luminance_classification :
    (∀ c1 c2 c3 c4 c5 c6 : Char,
      (hexDigitVal c1).isSome = true → (hexDigitVal c2).isSome = true →
      (hexDigitVal c3).isSome = true → (hexDigitVal c4).isSome = true →
      (hexDigitVal c5).isSome = true → (hexDigitVal c6).isSome = true →
      (isLightColor (String.mk ['#', c1, c2, c3, c4, c5, c6]) = true ↔
        (0.299 * ((16 * (hexDigitVal c1).getD 0 + (hexDigitVal c2).getD 0 : Nat) : ℚ) +
         0.587 * ((16 * (hexDigitVal c3).getD 0 + (hexDigitVal c4).getD 0 : Nat) : ℚ) +
         0.114 * ((16 * (hexDigitVal c5).getD 0 + (hexDigitVal c6).getD 0 : Nat) : ℚ)) / 255
          > 0.7)) ∧
    (∀ c1 c2 c3 : Char,
      (hexDigitVal c1).isSome = true → (hexDigitVal c2).isSome = true →
      (hexDigitVal c3).isSome = true →
      (isLightColor (String.mk ['#', c1, c2, c3]) = true ↔
        (0.299 * ((17 * (hexDigitVal c1).getD 0 : Nat) : ℚ) +
         0.587 * ((17 * (hexDigitVal c2).getD 0 : Nat) : ℚ) +
         0.114 * ((17 * (hexDigitVal c3).getD 0 : Nat) : ℚ)) / 255 > 0.7)) ∧
    (∀ (themes : List CodeThemeConfig) (theme : String) (cfg : CodeThemeConfig),
      findTheme themes theme = some cfg →
      isLightCodeTheme themes theme = isLightColor cfg.theme.background) := by
  refine ⟨fun c1 c2 c3 c4 c5 c6 h1 h2 h3 h4 h5 h6 => ?_,
          fun c1 c2 c3 h1 h2 h3 => ?_,
          fun themes theme cfg h => ?_⟩
  · unfold isLightColor
    have hrm : removeFirstHash (String.mk ['#', c1, c2, c3, c4, c5, c6]).data =
        [c1, c2, c3, c4, c5, c6] := by
      simp [removeFirstHash]
    rw [hrm]
    simp only [List.length_cons, List.length_nil, List.drop, List.take]
    rw [if_neg (by norm_num)]
    rw [parseIntHex_pair c1 c2 h1 h2, parseIntHex_pair c3 c4 h3 h4,
        parseIntHex_pair c5 c6 h5 h6]
    exact decide_eq_true_iff
  · unfold isLightColor
    have hrm : removeFirstHash (String.mk ['#', c1, c2, c3]).data = [c1, c2, c3] := by
      simp [removeFirstHash]
    rw [hrm]
    simp only [List.length_cons, List.length_nil]
    rw [if_pos (by norm_num)]
    simp only [List.map_cons, List.map_nil]
    rw [parseIntHex_pair c1 c1 h1 h1, parseIntHex_pair c2 c2 h2 h2,
        parseIntHex_pair c3 c3 h3 h3]
    have e : ∀ v : Nat, 16 * v + v = 17 * v := by
      intro v
      omega
    rw [e, e, e]
    exact decide_eq_true_iff
  · simp [isLightCodeTheme, h]

theorem c3_witness :
    isLightColor (String.mk ['#', 'f', 'f', 'f', 'f', 'f', 'f']) = true := by
  refine (c3_luminance_classification.1 'f' 'f' 'f' 'f' 'f' 'f' (by decide) (by decide)
    (by decide) (by decide) (by decide) (by decide)).mpr ?_
  have hv : (hexDigitVal 'f').getD 0 = 15 := by decide
  rw [hv]
  norm_num

theorem findDoubleDollar_append (content tail : List Char)
    (h : containsSeq ['$', '$'] (content ++ ['$']) = false) :
    findDoubleDollar (content ++ '$' :: '$' :: tail) = some (content, tail) := by
  induction content with
  | nil => rfl
  | cons a as ih =>
    have hcons : containsSeq ['$', '$'] ((a :: as) ++ ['$']) =
        (startsWithSeq ['$', '$'] ((a :: as) ++ ['$']) || containsSeq ['$', '$'] (as ++ ['$'])) := by
      simp [containsSeq]
    rw [hcons] at h
    have h1 : startsWithSeq ['$', '$'] ((a :: as) ++ ['$']) = false := by
      rcases Bool.or_eq_false_iff.mp h with ⟨h1, _⟩
      exact h1
    have h2 : containsSeq ['$', '$'] (as ++ ['$']) = false := by
      rcases Bool.or_eq_false_iff.mp h with ⟨_, h2⟩
      exact h2
    cases as with
    | nil =>
      have ha : ¬ a = '$' := by
        intro hEq
        subst hEq
        simp [startsWithSeq] at h1
      show findDoubleDollar (a :: '$' :: '$' :: tail) = some ([a], tail)
      unfold findDoubleDollar
      rw [if_neg (by
        intro hc
        exact ha hc.1)]
      rw [show findDoubleDollar ('$' :: '$' :: tail) = some ([], tail) from rfl]
    | cons b bs =>
      have hnot : ¬ (a = '$' ∧ b = '$') := by
        rintro ⟨ha, hb⟩
        subst ha
        subst hb
        simp [startsWithSeq] at h1
      show findDoubleDollar (a :: b :: (bs ++ '$' :: '$' :: tail)) = some (a :: b :: bs, tail)
      unfold findDoubleDollar
      rw [if_neg hnot]
      have ihh := ih h2
      rw [show (b :: (bs ++ '$' :: '$' :: tail)) = ((b :: bs) ++ '$' :: '$' :: tail) from rfl]
      rw [ihh]

theorem findDoubleDollar_none_iff (l : List Char) :
    findDoubleDollar l = none ↔ containsSeq ['$', '$'] l = false := by
  induction l with
  | nil => simp [findDoubleDollar, containsSeq, startsWithSeq]
  | cons a as ih =>
    cases as with
    | nil => simp [findDoubleDollar, containsSeq, startsWithSeq]
    | cons b bs =>
      by_cases hab : a = '$' ∧ b = '$'
      · obtain ⟨h1, h2⟩ := hab
        subst h1
        subst h2
        unfold findDoubleDollar
        rw [if_pos ⟨rfl, rfl⟩]
        simp [containsSeq, startsWithSeq]
      · unfold findDoubleDollar
        rw [if_neg hab]
        have hsw : startsWithSeq ['$', '$'] (a :: b :: bs) = false := by
          by_cases ha : a = '$'
          · subst ha
            have hb : ¬ b = '$' := fun hb => hab ⟨rfl, hb⟩
            simp [startsWithSeq, eq_comm, hb]
          · simp [startsWithSeq, eq_comm, ha]
        have hc : containsSeq ['$', '$'] (a :: b :: bs) = containsSeq ['$', '$'] (b :: bs) := by
          simp [containsSeq, hsw]
        rw [hc]
        rw [← ih]
        cases hf : findDoubleDollar (b :: bs) <;> simp [hf]

/-- **C5.** For every input starting with `$$` whose remainder contains a
closing `$$`, the latexBlock tokenizer emits a token whose `raw` is the
full non-greedy `$$...$$` match (the capture may span newlines) and whose
`text` is the capture with surrounding whitespace trimmed; a token is
emitted exactly when the input starts with `$$` and the rest contains
`$$`. -/
theorem c5_latex_tokenizer :
    (∀ (content tail : List Char),
      containsSeq ['$', '$'] (content ++ ['$']) = false →
      latexBlockTokenize (String.mk ('$' :: '$' :: (content ++ '$' :: '$' :: tail))) =
        some { raw := String.mk ('$' :: '$' :: (content ++ ['$', '$'])),
               text := String.mk (jsTrim content) }) ∧
    (∀ src : String,
      (latexBlockTokenize src).isSome =
        (startsWithSeq ['$', '$'] src.data && containsSeq ['$', '$'] (src.data.drop 2))) := by
  constructor
  · intro content tail h
    show latexTokenizeAux ('$' :: '$' :: (content ++ '$' :: '$' :: tail)) = _
    simp only [latexTokenizeAux]
    rw [if_pos ⟨trivial, trivial⟩]
    rw [findDoubleDollar_append content tail h]
  · intro src
    show (latexTokenizeAux src.data).isSome = _
    cases hl : src.data with
    | nil => simp [latexTokenizeAux, startsWithSeq]
    | cons a as =>
      cases as with
      | nil => simp [latexTokenizeAux, startsWithSeq, eq_comm]
      | cons b bs =>
        by_cases hab : a = '$' ∧ b = '$'
        · obtain ⟨h1, h2⟩ := hab
          subst h1
          subst h2
          simp only [latexTokenizeAux]
          rw [if_pos ⟨trivial, trivial⟩]
          simp only [List.drop_succ_cons, List.drop_zero]
          cases hf : findDoubleDollar bs with
          | none =>
            have hc := (findDoubleDollar_none_iff bs).mp hf
            simp [hf, hc, startsWithSeq]
          | some pr =>
            have hc : containsSeq ['$', '$'] bs = true := by
              by_contra hcf
              have := (findDoubleDollar_none_iff bs).mpr (by simpa using hcf)
              rw [this] at hf
              cases hf
            simp [hf, hc, startsWithSeq]
        · simp only [latexTokenizeAux]
          rw [if_neg hab]
          have hsw : startsWithSeq ['$', '$'] (a :: b :: bs) = false := by
            by_cases ha : a = '$'
            · subst ha
              have hb : ¬ b = '$' := fun hb => hab ⟨rfl, hb⟩
              simp [startsWithSeq, eq_comm, hb]
            · simp [startsWithSeq, eq_comm, ha]
          simp [hsw]

theorem c5_witness :
    latexBlockTokenize (String.mk ('$' :: '$' :: (['a'] ++ '$' :: '$' :: []))) =
      some { raw := String.mk ('$' :: '$' :: (['a'] ++ ['$', '$'])),
             text := String.mk (jsTrim ['a']) } :=
  c5_latex_tokenizer.1 ['a'] [] (by decide)

theorem luminance_gt_iff (r g b : Nat) :
    ((0.299 * (r : ℚ) + 0.587 * (g : ℚ) + 0.114 * (b : ℚ)) / 255 > 0.7) ↔
      (299 * r + 587 * g + 114 * b > 178500) := by
  rw [gt_iff_lt, lt_div_iff₀ (by norm_num : (0:ℚ) < 255)]
  constructor
  · intro h
    have h2 : (178500 : ℚ) < 299 * r + 587 * g + 114 * b := by nlinarith
    exact_mod_cast h2
  · intro h
    have h2 : (178500 : ℚ) < 299 * r + 587 * g + 114 * b := by exact_mod_cast h
    nlinarith

theorem isLightColor_white : isLightColor "#ffffff" = true := by
  rw [show isLightColor "#ffffff" =
      decide ((0.299 * ((255:Nat) : ℚ) + 0.587 * ((255:Nat) : ℚ) +
        0.114 * ((255:Nat) : ℚ)) / 255 > 0.7) from rfl]
  rw [decide_eq_true_eq, luminance_gt_iff]
  norm_num

/-- **C7.** For every heading of depth `d`, the heading override produces
`<hd ...>content</hd>` whose inline `style` attribute is exactly the
serialization of the configured `h<d>` style spread-extended with
`color: themeColor`, the attribute being omitted precisely when that
serialization is empty. -/
theorem c7_heading_style (opts : RendererOptions) (parseInline : String → String)
    (text : String) (depth : Nat) :
    (cssPropertiesToString (objSet (opts.block_h depth) "color" opts.base_themeColor) = "" →
      headingRender opts parseInline text depth =
        "<h" ++ toString depth ++ ">" ++ parseInline text ++ "</h" ++ toString depth ++ ">") ∧
    (cssPropertiesToString (objSet (opts.block_h depth) "color" opts.base_themeColor) ≠ "" →
      headingRender opts parseInline text depth =
        "<h" ++ toString depth ++
          (" style=\"" ++
            cssPropertiesToString (objSet (opts.block_h depth) "color" opts.base_themeColor) ++
            "\"") ++
          ">" ++ parseInline text ++ "</h" ++ toString depth ++ ">") := by
  constructor
  · intro h
    simp only [headingRender]
    rw [h]
    simp
  · intro h
    simp only [headingRender]
    rw [if_neg h]

theorem c7_witness :
    headingRender defaultOptions (fun s => s) "Title" 2 = "<h2>Title</h2>" := by
  have h := (c7_heading_style defaultOptions (fun s => s) "Title" 2).1 (by rfl)
  rw [h]
  rfl

/-- **C9.** With `forceDarkPalette` set and a light configured background,
`getTokenStyles` takes the token color from the `monokai` palette instead
of the requested theme; and since the code-block path passes
`forceDarkPalette = isLightCodeTheme(codeTheme)`, every light code theme's
code-block tokens are styled from the monokai palette. -/
theorem c9_force_dark_palette :
    (∀ (themes : List CodeThemeConfig) (theme : String) (cfg m : CodeThemeConfig)
        (tokenType : String),
      findTheme themes theme = some cfg →
      isLightColor cfg.theme.background = true →
      findTheme themes "monokai" = some m →
      getTokenStyles themes theme tokenType true =
        getTokenStyles themes "monokai" tokenType false) ∧
    (∀ (themes : List CodeThemeConfig) (opts : RendererOptions) (tokenType : String),
      codeBlockTokenStyle themes opts tokenType =
        getTokenStyles themes (effectiveCodeTheme opts) tokenType
          (isLightCodeTheme themes (effectiveCodeTheme opts))) ∧
    (∀ (themes : List CodeThemeConfig) (opts : RendererOptions) (cfg m : CodeThemeConfig)
        (tokenType : String),
      findTheme themes (effectiveCodeTheme opts) = some cfg →
      isLightColor cfg.theme.background = true →
      findTheme themes "monokai" = some m →
      codeBlockTokenStyle themes opts tokenType =
        getTokenStyles themes "monokai" tokenType false) := by
  refine ⟨fun themes theme cfg m tokenType h1 h2 h3 => ?_,
          fun themes opts tokenType => rfl,
          fun themes opts cfg m tokenType h1 h2 h3 => ?_⟩
  · simp [getTokenStyles, h1, h2, h3]
  · have hl : isLightCodeTheme themes (effectiveCodeTheme opts) = true := by
      simp [isLightCodeTheme, h1, h2]
    show getTokenStyles themes (effectiveCodeTheme opts) tokenType
        (isLightCodeTheme themes (effectiveCodeTheme opts)) = _
    rw [hl]
    simp [getTokenStyles, h1, h2, h3]

theorem c9_witness :
    getTokenStyles
      [⟨"github", ⟨"#ffffff", "#24292e", [("keyword", "#d73a49")]⟩⟩,
       ⟨"monokai", ⟨"#272822", "#f8f8f2", [("keyword", "#f92672")]⟩⟩]
      "github" "keyword" true =
    getTokenStyles
      [⟨"github", ⟨"#ffffff", "#24292e", [("keyword", "#d73a49")]⟩⟩,
       ⟨"monokai", ⟨"#272822", "#f8f8f2", [("keyword", "#f92672")]⟩⟩]
      "monokai" "keyword" false :=
  c9_force_dark_palette.1
    [⟨"github", ⟨"#ffffff", "#24292e", [("keyword", "#d73a49")]⟩⟩,
     ⟨"monokai", ⟨"#272822", "#f8f8f2", [("keyword", "#f92672")]⟩⟩]
    "github"
    ⟨"github", ⟨"#ffffff", "#24292e", [("keyword", "#d73a49")]⟩⟩
    ⟨"monokai", ⟨"#272822", "#f8f8f2", [("keyword", "#f92672")]⟩⟩
    "keyword" rfl isLightColor_white rfl

theorem startsWithSeq_iff_append (kw l : List Char) :
    startsWithSeq kw l = true ↔ ∃ rest, l = kw ++ rest := by
  induction kw generalizing l with
  | nil =>
    simp [startsWithSeq]
  | cons a as ih =>
    cases l with
    | nil =>
      simp [startsWithSeq]
    | cons b bs =>
      simp only [startsWithSeq, Bool.and_eq_true, decide_eq_true_eq, ih, List.cons_append,
        List.cons.injEq]
      constructor
      · rintro ⟨hab, rest, hr⟩
        exact ⟨rest, hab.symm, hr⟩
      · rintro ⟨rest, hab, hr⟩
        exact ⟨hab.symm, rest, hr⟩

theorem kwThenWs_iff (kw l : List Char) :
    kwThenWs kw l = true ↔
      ∃ w rest, l = kw ++ w :: rest ∧ jsWhitespace w = true := by
  unfold kwThenWs
  rw [Bool.and_eq_true, startsWithSeq_iff_append]
  constructor
  · rintro ⟨⟨rest, hr⟩, hm⟩
    subst hr
    rw [List.drop_left] at hm
    cases rest with
    | nil => cases hm
    | cons w t =>
      exact ⟨w, t, rfl, hm⟩
  · rintro ⟨w, t, hl, hw⟩
    subst hl
    refine ⟨⟨w :: t, rfl⟩, ?_⟩
    rw [List.drop_left]
    exact hw

theorem isMermaidContent_iff (l : List Char) :
    isMermaidContent l = true ↔
      ∃ kw, kw ∈ mermaidKeywords ∧
        ∃ w rest, l = kw ++ w :: rest ∧ jsWhitespace w = true := by
  unfold isMermaidContent
  rw [List.any_eq_true]
  constructor
  · rintro ⟨kw, hmem, hkw⟩
    exact ⟨kw, hmem, (kwThenWs_iff kw l).mp hkw⟩
  · rintro ⟨kw, hmem, hex⟩
    exact ⟨kw, hmem, (kwThenWs_iff kw l).mpr hex⟩

/-- **C6.** Whenever the fence rule matches (a fenced code block), the
mermaidBlock tokenizer emits a token exactly when the trimmed fence
content begins with one of the diagram-type keywords `pie`, `graph`,
`sequenceDiagram`, `gantt`, `classDiagram`, `flowchart` followed by a
whitespace character; when the fence rule does not match, no token is
emitted. -/
theorem c6_mermaid_tokenizer :
    (∀ (l pc content cc : List Char),
      fenceParse l = some (pc, content, cc) →
      ((mermaidTokenizeAux l).isSome = true ↔
        ∃ kw, kw ∈ mermaidKeywords ∧
          ∃ w rest, jsTrim content = kw ++ w :: rest ∧ jsWhitespace w = true)) ∧
    (∀ l : List Char, fenceParse l = none → mermaidTokenizeAux l = none) := by
  constructor
  · intro l pc content cc h
    by_cases hm : isMermaidContent (jsTrim content) = true
    · simp only [mermaidTokenizeAux, h, hm, if_true, Option.isSome_some, true_iff]
      exact (isMermaidContent_iff (jsTrim content)).mp hm
    · simp only [mermaidTokenizeAux, h]
      rw [if_neg hm]
      simp only [Option.isSome_none, Bool.false_eq_true, false_iff]
      intro hex
      exact hm ((isMermaidContent_iff (jsTrim content)).mpr hex)
  · intro l h
    simp [mermaidTokenizeAux, h]

theorem c6_witness :
    (mermaidTokenizeAux ("```\npie a\n```".data)).isSome = true :=
  (c6_mermaid_tokenizer.1 ("```\npie a\n```".data) [] ("\npie a".data) ("\n```".data)
    (by decide)).mpr
    ⟨"pie".data, by decide, ' ', "a".data, by decide, by decide⟩
